import Mathlib

/-!
Shallow embedding of the job-portal match-scoring engine and job-sync cache
(`employee_portal/utils/match_scoring.py`, `employee_portal/utils/helpers.py`,
`employee_portal/models/profile.py`, `employee_portal/routes/job_routes.py`).
Python strings are modelled as Lean `String`, Python floats as `ℚ`, Python
sets as `Finset String`, and the database job table as a `List` of job
records.
-/

/-- Model of Python `str.lower()`: lowercase every character. -/
def pyLower (s : String) : String := String.mk (s.data.map Char.toLower)

/-- Strip leading and trailing whitespace from a character list, the
model of Python `str.strip()` on the underlying characters. -/
def stripList (l : List Char) : List Char :=
  ((l.dropWhile Char.isWhitespace).reverse.dropWhile Char.isWhitespace).reverse

/-- Model of Python `str.strip()`. -/
def pyStrip (s : String) : String := String.mk (stripList s.data)

namespace MatchScoring

/-- Embedding of `_normalize_text` from `match_scoring.py`: `text.lower().strip()`. -/
def normalize_text (s : String) : String := pyStrip (pyLower s)

end MatchScoring

/-- Maximal runs of characters satisfying `p`, accumulator-based.
`acc` holds the current run reversed. -/
def runsAux (p : Char → Bool) : List Char → List Char → List (List Char)
  | [], acc => if acc.isEmpty then [] else [acc.reverse]
  | c :: t, acc =>
    if p c then runsAux p t (c :: acc)
    else if acc.isEmpty then runsAux p t []
    else acc.reverse :: runsAux p t []

/-- Model of Python `str.split()` with no argument: maximal runs of
non-whitespace characters. -/
def pySplit (s : String) : List String :=
  (runsAux (fun c => !c.isWhitespace) s.data []).map String.mk

/-- Contiguous-sublist test on character lists (Python substring `in`). -/
def infixCheck : List Char → List Char → Bool
  | a, [] => a.isEmpty
  | a, b@(_ :: t) => a.isPrefixOf b || infixCheck a t

/-- Model of Python `a in b` on strings: `a` occurs contiguously in `b`. -/
def pyIn (a b : String) : Bool := infixCheck a.data b.data

/-- The whitespace-delimited word set of a string (Python `set(s.split())`). -/
def wordSet (s : String) : Finset String := (pySplit s).toFinset

namespace MatchScoring

/-- Embedding of `_fuzzy_match` from `match_scoring.py`: 1.0 on identical normalized
strings, 0.8 when one contains the other, otherwise a word-overlap score. -/
def fuzzy_match (t1 t2 : String) : ℚ :=
  let text1 := normalize_text t1
  let text2 := normalize_text t2
  if text1 = text2 then 1
  else if pyIn text1 text2 || pyIn text2 text1 then 8/10
  else
    let words1 := wordSet text1
    let words2 := wordSet text2
    if words1 = ∅ ∨ words2 = ∅ then 0
    else
      let common_words := words1 ∩ words2
      let total_unique_words := (words1 ∪ words2).card
      if total_unique_words = 0 then 0
      else
        let overlap_ratio : ℚ := (common_words.card : ℚ) / (total_unique_words : ℚ)
        if overlap_ratio ≥ 1/2 then 6/10 + (overlap_ratio - 1/2) * (8/10)
        else 0

end MatchScoring

/-- A Python value that is iterated over by `_normalize_list`: `None`, a list
of strings, or a single string (over which Python iterates character by
character). -/
inductive PyStrs where
  | none
  | list (l : List String)
  | str (s : String)
deriving DecidableEq

namespace MatchScoring

/-- Embedding of `_normalize_list` from `match_scoring.py`.  Falsy input gives `∅`;
otherwise each iterated item that is a string with non-blank strip is
normalized and collected into a set.  Iterating a Python string yields its
characters as one-character strings. -/
def normalize_list : PyStrs → Finset String
  | .none => ∅
  | .list l =>
    if l = [] then ∅
    else ((l.filter (fun item => pyStrip item ≠ "")).map normalize_text).toFinset
  | .str s =>
    if s = "" then ∅
    else
      (((s.data.map (fun c => String.mk [c])).filter
        (fun item => pyStrip item ≠ "")).map normalize_text).toFinset

/-- The stop-word list of `_extract_keywords`. -/
def stop_words : List String :=
  ["the", "a", "an", "and", "or", "but", "in", "on", "at", "to", "for",
   "of", "with", "by", "from", "as", "is", "was", "are", "were", "be",
   "been", "being", "have", "has", "had", "do", "does", "did", "will",
   "would", "should", "could", "may", "might", "must", "can", "this",
   "that", "these", "those", "i", "you", "he", "she", "it", "we", "they",
   "what", "which", "who", "when", "where", "why", "how", "all", "each",
   "every", "both", "few", "more", "most", "other", "some", "such",
   "only", "own", "same", "than", "too", "very", "just", "about", "into",
   "through", "during", "including", "against", "among", "throughout"]

/-- A character counted as a word character by the regex `\b` boundary. -/
def isWordChar (c : Char) : Bool := c.isAlphanum || c = '_'

/-- Embedding of `_extract_keywords` from `match_scoring.py`: the regex
`\b[a-z]+\b` over the lowercased text picks out the maximal word-character
runs made only of `a`-`z`; stop words and words of length `< 3` are
dropped. -/
def extract_keywords (text : String) : Finset String :=
  if text = "" then ∅
  else
    let runs := runsAux isWordChar (pyLower text).data []
    let words := (runs.filter (fun r => r.all (fun c => 'a' ≤ c && c ≤ 'z'))).map String.mk
    (words.filter (fun w => w ∉ stop_words ∧ 3 ≤ w.length)).toFinset

end MatchScoring

/-- The profile attributes read by the scoring engine
(`models/profile.py`; absent/`None` text fields are modelled as `""`,
which has the same truthiness in every use site). -/
structure Profile where
  headline : String
  summary : String
  transcript_summary : String
  experience : String
  skills : List String
  certifications : List String
deriving DecidableEq

/-- Embedding of `Profile.skills_list` from `models/profile.py`. -/
def Profile.skills_list (p : Profile) : List String := p.skills

/-- Embedding of `Profile.certifications_list` from `models/profile.py`. -/
def Profile.certifications_list (p : Profile) : List String := p.certifications

/-- A local job record (`models/job.py`); `posted_at` is modelled as a
natural-number timestamp and `match_score` as a rational. -/
structure Job where
  id : ℕ
  external_id : String
  title : String
  role : String
  company : String
  location : String
  description : String
  required_skills : List String
  required_certifications : List String
  posted_at : ℕ
  match_score : ℚ
deriving DecidableEq

namespace MatchScoring

/-- Best fuzzy match of one unmatched job skill against all profile skills
(the inner loop of the skills dimension, starting from `0.0`). -/
def bestFuzzy (profile_skills : Finset String) (job_skill : String) : ℚ :=
  profile_skills.fold max 0 (fun profile_skill => fuzzy_match profile_skill job_skill)

/-- Skills dimension of `calculate_match_score`
(`match_scoring.py` lines 108-132): contribution to `total_score` paired
with contribution to `max_possible`. -/
def skillsDim (profile : Profile) (job : Job) : ℚ × ℚ :=
  let profile_skills := normalize_list (.list profile.skills_list)
  let job_skills := normalize_list (.list job.required_skills)
  if job_skills ≠ ∅ then
    let exact_matches := (job_skills ∩ profile_skills).card
    let unmatched_job_skills := job_skills \ profile_skills
    let fuzzy_score :=
      unmatched_job_skills.sum (fun job_skill => bestFuzzy profile_skills job_skill * (7/10))
    let skill_score := ((exact_matches : ℚ) + fuzzy_score) / (job_skills.card : ℚ)
    (skill_score * 3, 3)
  else
    (5/10, 3)

/-- Keyword dimension of `calculate_match_score`
(`match_scoring.py` lines 134-157). -/
def keywordDim (profile : Profile) (job : Job) : ℚ × ℚ :=
  let profile_text :=
    (if profile.summary ≠ "" then profile.summary ++ " " else "")
    ++ (if profile.transcript_summary ≠ "" then profile.transcript_summary ++ " " else "")
    ++ (if profile.experience ≠ "" then profile.experience ++ " " else "")
  if profile_text ≠ "" ∧ job.description ≠ "" then
    let job_keywords := extract_keywords job.description
    let profile_keywords := extract_keywords profile_text
    if job_keywords ≠ ∅ then
      let matching_keywords := (job_keywords ∩ profile_keywords).card
      let keyword_score := (matching_keywords : ℚ) / (job_keywords.card : ℚ)
      (keyword_score * (15/10), 15/10)
    else
      (2/10, 15/10)
  else
    (0, 15/10)

/-- Certifications dimension of `calculate_match_score`
(`match_scoring.py` lines 159-172). -/
def certsDim (profile : Profile) (job : Job) : ℚ × ℚ :=
  let profile_certs := normalize_list (.list profile.certifications_list)
  let job_certs := normalize_list (.list job.required_certifications)
  if job_certs ≠ ∅ then
    let exact_cert_matches := (job_certs ∩ profile_certs).card
    if 0 < exact_cert_matches then
      let cert_score := (exact_cert_matches : ℚ) / (job_certs.card : ℚ)
      (cert_score * (3/10), 3/10)
    else
      (0, 3/10)
  else
    (1/10, 3/10)

/-- Role/headline dimension of `calculate_match_score`
(`match_scoring.py` lines 174-191). -/
def roleDim (profile : Profile) (job : Job) : ℚ × ℚ :=
  let contribution :=
    if job.role ≠ "" ∧ profile.headline ≠ "" then
      let job_role := normalize_text job.role
      let headline := normalize_text profile.headline
      if pyIn job_role headline then 2/10
      else
        let job_words := wordSet job_role
        let headline_words := wordSet headline
        if job_words ≠ ∅ ∧ headline_words ≠ ∅ then
          let overlap := (job_words ∩ headline_words).card
          if 0 < overlap then
            let overlap_ratio := (overlap : ℚ) / (max job_words.card 1 : ℚ)
            overlap_ratio * (15/100)
          else 0
        else 0
    else 0
  (contribution, 2/10)

/-- The accumulated `total_score` of `calculate_match_score`. -/
def totalScore (profile : Profile) (job : Job) : ℚ :=
  (skillsDim profile job).1 + (keywordDim profile job).1
    + (certsDim profile job).1 + (roleDim profile job).1

/-- The accumulated `max_possible` of `calculate_match_score`. -/
def maxPossible (profile : Profile) (job : Job) : ℚ :=
  (skillsDim profile job).2 + (keywordDim profile job).2
    + (certsDim profile job).2 + (roleDim profile job).2

end MatchScoring

/-- Python's bankers rounding (`round`) to an integer on exact rationals:
round half to even. -/
def pyRoundInt (q : ℚ) : ℤ :=
  if q - (⌊q⌋ : ℚ) < 1/2 then ⌊q⌋
  else if 1/2 < q - (⌊q⌋ : ℚ) then ⌊q⌋ + 1
  else if ⌊q⌋ % 2 = 0 then ⌊q⌋ else ⌊q⌋ + 1

/-- Python's `round(x, n)`: round to `n` decimal digits. -/
def pyRound (q : ℚ) (n : ℕ) : ℚ :=
  (pyRoundInt (q * (10 ^ n : ℕ)) : ℚ) / ((10 ^ n : ℕ) : ℚ)

namespace MatchScoring

/-- Embedding of `calculate_match_score` from `match_scoring.py` (0-5 scale):
`None` profile scores `0.0`; otherwise the four weighted dimensions are
accumulated, normalized by `max_possible`, clamped to `[0, 5]` and rounded
to one decimal place. -/
def calculate_match_score (profile : Option Profile) (job : Job) : ℚ :=
  match profile with
  | .none => 0
  | .some p =>
    let total_score := totalScore p job
    let max_possible := maxPossible p job
    let normalized_score := if 0 < max_possible then total_score / max_possible * 5 else 0
    pyRound (min (max normalized_score 0) 5) 1

end MatchScoring

namespace Helpers

/-- Embedding of `JOB_ROLE_REQUIREMENTS` from `utils/helpers.py`: role name mapped to
(required skills, required certifications). -/
def JOB_ROLE_REQUIREMENTS : List (String × List String × List String) :=
  [("Chef", (["cooking", "food safety", "inventory management"],
             ["food handler certification"])),
   ("Cashier", (["customer service", "cash handling", "food safety"],
                ["food handler certification"])),
   ("Driver", (["driving", "customer service", "food safety"],
               ["driver's license"])),
   ("Marketing Specialist", (["marketing", "customer service", "food safety"],
                             ["marketing certification"])),
   ("Food Safety Inspector", (["food safety", "inventory management"],
                              ["food safety certification"])),
   ("Fire Safety Inspector", (["gas leak tests", "city code adherence"],
                              ["cgli inspector"]))]

/-- Embedding of `_normalize_iterable` from `utils/helpers.py` (list inputs):
the set of `item.strip().lower()` for items with non-blank strip. -/
def normalize_iterable (items : List String) : Finset String :=
  if items = [] then ∅
  else ((items.filter (fun item => pyStrip item ≠ "")).map
          (fun item => pyLower (pyStrip item))).toFinset

/-- Embedding of `calculate_match_score` from `utils/helpers.py`: the simple
Jaccard-style 0-1 scorer, rounded to two decimal places. -/
def calculate_match_score (profile : Option Profile) (job : Job) : ℚ :=
  match profile with
  | .none => 0
  | .some p =>
    let profile_skills := normalize_iterable p.skills_list
    let profile_certs := normalize_iterable p.certifications_list
    let job_skills := normalize_iterable job.required_skills
    let job_certs := normalize_iterable job.required_certifications
    if job_skills = ∅ ∧ job_certs = ∅ then 0
    else
      let skill_match := (job_skills ∩ profile_skills).card
      let cert_match := (job_certs ∩ profile_certs).card
      let total_requirements := max (job_skills.card + job_certs.card) 1
      let base_score := ((skill_match + cert_match : ℕ) : ℚ) / (total_requirements : ℚ)
      let final_score :=
        match JOB_ROLE_REQUIREMENTS.find? (fun entry => entry.1 = job.role) with
        | Option.some entry =>
          let role_skills := entry.2.1.toFinset
          let role_certs := entry.2.2.toFinset
          let role_skill_match := (role_skills ∩ profile_skills).card
          let role_cert_match := (role_certs ∩ profile_certs).card
          let role_total := max (role_skills.card + role_certs.card) 1
          let role_score := ((role_skill_match + role_cert_match : ℕ) : ℚ) / (role_total : ℚ)
          base_score * (6/10) + role_score * (4/10)
        | Option.none => base_score
      pyRound (min final_score 1) 2

end Helpers

/-- Split a character list on a separator character, keeping empty
segments (Python `str.split(",")`). -/
def splitOnChar (sep : Char) : List Char → List (List Char)
  | [] => [[]]
  | c :: t =>
    if c = sep then [] :: splitOnChar sep t
    else
      match splitOnChar sep t with
      | [] => [[c]]
      | h :: r => (c :: h) :: r

/-- Model of Python `s.split(",")`. -/
def pySplitComma (s : String) : List String := (splitOnChar ',' s.data).map String.mk

/-- Lexicographic comparison of character lists by code point, the order
Python `sorted` uses on strings. -/
def charListLe : List Char → List Char → Bool
  | [], _ => true
  | _ :: _, [] => false
  | a :: as, b :: bs => if a < b then true else if a = b then charListLe as bs else false

/-- Code-point lexicographic order on strings (Python string comparison). -/
def strLe (a b : String) : Bool := charListLe a.data b.data

/-- Model of Python `sorted` on a set of strings: sort the deduplicated
list lexicographically. -/
def pySorted (l : List String) : List String :=
  List.insertionSort (fun a b => strLe a b = true) l.dedup

namespace ProfileModel

/-- Embedding of `_normalize_skills` from `models/profile.py` (the `set` event listener
on `Profile.skills`): `None` becomes `[]`; a list is stripped, blanks
dropped, deduplicated and sorted; a string is split on commas, stripped,
blanks dropped, deduplicated and sorted.  Note it does NOT lowercase. -/
def normalize_skills : PyStrs → List String
  | .none => []
  | .list l => pySorted ((l.filter (fun s => pyStrip s ≠ "")).map pyStrip)
  | .str s => pySorted (((pySplitComma s).filter (fun seg => pyStrip seg ≠ "")).map pyStrip)

/-- Embedding of `_normalize_certs` from `models/profile.py` (the `set` event listener
on `Profile.certifications`); identical body to `_normalize_skills`. -/
def normalize_certs : PyStrs → List String
  | .none => []
  | .list l => pySorted ((l.filter (fun s => pyStrip s ≠ "")).map pyStrip)
  | .str s => pySorted (((pySplitComma s).filter (fun seg => pyStrip seg ≠ "")).map pyStrip)

end ProfileModel


namespace JobSync

/-- A fetched job record from the external source
(`fetch_jobs()` payload as consumed by `_sync_jobs_if_needed`):
`id` is the external identifier (already as a string, modelling
`str(payload["id"])`); fields read with `.get` are optional. -/
structure Payload where
  id : String
  title : String
  role : String
  location : String
  company : Option String
  description : Option String
  required_skills : Option (List String)
  required_certifications : Option (List String)
  posted_at : Option ℕ
deriving DecidableEq

/-- The persistent state touched by the sync routine: the local job table,
the set of job ids that occur on some application row, the module-level
`_LAST_SYNC_AT` timestamp, and the next primary key the database will
assign. -/
structure SyncState where
  jobs : List Job
  appJobIds : List ℕ
  lastSyncAt : Option ℕ
  nextId : ℕ
deriving DecidableEq

/-- Overwrite a job's mutable fields with a payload's values, applying the
defaults of `_sync_jobs_if_needed` (`company` defaults to `"Acme Corp"`,
`description` to `""`, skills/certifications to `[]`; `posted_at` is only
assigned when the payload carries a truthy value). -/
def applyPayload (p : Payload) (j : Job) : Job :=
  { j with
    title := p.title
    role := p.role
    company := p.company.getD "Acme Corp"
    location := p.location
    description := p.description.getD ""
    required_skills := p.required_skills.getD []
    required_certifications := p.required_certifications.getD []
    posted_at := match p.posted_at with
      | Option.some t => t
      | Option.none => j.posted_at }

/-- A freshly constructed `Job(external_id=...)` row before field
assignment; `posted_at` takes its column default (creation time `now`). -/
def newJob (eid : String) (nid : ℕ) (now : ℕ) : Job :=
  { id := nid, external_id := eid, title := "", role := "", company := "Acme Corp",
    location := "", description := "", required_skills := [],
    required_certifications := [], posted_at := now, match_score := 0 }

/-- One iteration of the upsert loop of `_sync_jobs_if_needed`: look the
payload's external id up in the job table; update the matching row in
place, or append a fresh row with the next primary key. -/
def upsertJob (jobs : List Job) (nid : ℕ) (now : ℕ) (p : Payload) : List Job × ℕ :=
  if jobs.any (fun j => j.external_id = p.id) then
    (jobs.map (fun j => if j.external_id = p.id then applyPayload p j else j), nid)
  else
    (jobs ++ [applyPayload p (newJob p.id nid now)], nid + 1)

/-- The whole upsert loop of `_sync_jobs_if_needed`: fold `upsertJob` over
the fetched payloads in order. -/
def foldUpsert (jobs : List Job) (nid : ℕ) (now : ℕ) (payloads : List Payload) :
    List Job × ℕ :=
  payloads.foldl (fun (acc : List Job × ℕ) p => upsertJob acc.1 acc.2 now p) (jobs, nid)

/-- Number of stored jobs carrying a given external id. -/
def countEid (jobs : List Job) (eid : String) : ℕ :=
  (jobs.filter (fun j => j.external_id = eid)).length

/-- A stored job carries exactly a fetched payload's field values, with
the defaults `_sync_jobs_if_needed` applies on absent payload keys. -/
def matchesPayload (j : Job) (p : Payload) : Prop :=
  j.external_id = p.id ∧ j.title = p.title ∧ j.role = p.role
  ∧ j.company = p.company.getD "Acme Corp" ∧ j.location = p.location
  ∧ j.description = p.description.getD ""
  ∧ j.required_skills = p.required_skills.getD []
  ∧ j.required_certifications = p.required_certifications.getD []
  ∧ ∀ t, p.posted_at = Option.some t → j.posted_at = t

/-- The refresh body of `_sync_jobs_if_needed`: upsert every payload, then
(when the fetched id set is non-empty) delete the jobs whose external id
was not seen and that have no associated applications. -/
def syncRefresh (s : SyncState) (payloads : List Payload) (now : ℕ) : SyncState :=
  let upserted := foldUpsert s.jobs s.nextId now payloads
  let seen_external_ids : Finset String := (payloads.map (fun p => p.id)).toFinset
  let jobs2 :=
    if seen_external_ids ≠ ∅ then
      upserted.1.filter
        (fun j => ¬(j.external_id ∉ seen_external_ids ∧ j.id ∉ s.appJobIds))
    else upserted.1
  { jobs := jobs2, appJobIds := s.appJobIds, lastSyncAt := Option.some now,
    nextId := upserted.2 }

/-- The refresh condition of `_sync_jobs_if_needed`: refresh when no prior
sync happened, when `force` is set, or when more than `timeout` seconds
elapsed since the last sync. -/
def shouldRefresh (s : SyncState) (force : Bool) (timeout : ℕ) (now : ℕ) : Bool :=
  match s.lastSyncAt with
  | Option.none => true
  | Option.some t => force || decide (timeout < now - t)

/-- The default of `config.get("JOB_CACHE_TIMEOUT", 900)`. -/
def JOB_CACHE_TIMEOUT_default : ℕ := 900

/-- Embedding of `_sync_jobs_if_needed` from `routes/job_routes.py`.  `commitOk` models
whether `db.session.commit()` succeeds; when it raises, the exception
propagates before `_LAST_SYNC_AT` is assigned, so the timestamp keeps its
old value and the uncommitted changes are lost. -/
def sync_jobs_if_needed (s : SyncState) (force : Bool) (timeout : ℕ) (now : ℕ)
    (payloads : List Payload) (commitOk : Bool) : Except SyncState SyncState :=
  if shouldRefresh s force timeout now then
    if commitOk then Except.ok (syncRefresh s payloads now)
    else Except.error { s with lastSyncAt := s.lastSyncAt }
  else Except.ok s

end JobSync

theorem pyRoundInt_eq_floor_or (q : ℚ) :
    pyRoundInt q = ⌊q⌋ ∨ (pyRoundInt q = ⌊q⌋ + 1 ∧ 1/2 ≤ q - (⌊q⌋ : ℚ)) := by
  unfold pyRoundInt
  by_cases h1 : q - (⌊q⌋ : ℚ) < 1/2
  · left
    exact if_pos h1
  · push_neg at h1
    rw [if_neg (not_lt.mpr h1)]
    by_cases h2 : 1/2 < q - (⌊q⌋ : ℚ)
    · right
      exact ⟨if_pos h2, h1⟩
    · rw [if_neg h2]
      by_cases h3 : ⌊q⌋ % 2 = 0
      · left
        exact if_pos h3
      · right
        exact ⟨if_neg h3, h1⟩

theorem pyRoundInt_ge (q : ℚ) (b : ℤ) (h : (b : ℚ) ≤ q) : b ≤ pyRoundInt q := by
  have hf : b ≤ ⌊q⌋ := Int.le_floor.mpr h
  rcases pyRoundInt_eq_floor_or q with h' | ⟨h', _⟩ <;> rw [h'] <;> omega

theorem pyRoundInt_le (q : ℚ) (b : ℤ) (h : q ≤ (b : ℚ)) : pyRoundInt q ≤ b := by
  have hf : ⌊q⌋ ≤ b := by
    calc ⌊q⌋ ≤ ⌊(b : ℚ)⌋ := Int.floor_le_floor h
    _ = b := Int.floor_intCast b
  rcases pyRoundInt_eq_floor_or q with h' | ⟨h', hr⟩
  · rw [h']
    exact hf
  · rw [h']
    have hflt : (⌊q⌋ : ℚ) < (b : ℚ) := by
      have := Int.floor_le q
      linarith
    have : ⌊q⌋ < b := by exact_mod_cast hflt
    omega

theorem pyRound_one_eq (q : ℚ) : pyRound q 1 = ((pyRoundInt (q * 10) : ℤ) : ℚ) / 10 := by
  unfold pyRound
  norm_num

theorem pyRound_one_bounds (q : ℚ) (h0 : 0 ≤ q) (h5 : q ≤ 5) :
    0 ≤ pyRound q 1 ∧ pyRound q 1 ≤ 5 := by
  rw [pyRound_one_eq]
  have hge : (0 : ℤ) ≤ pyRoundInt (q * 10) := by
    apply pyRoundInt_ge
    push_cast
    linarith
  have hle : pyRoundInt (q * 10) ≤ (50 : ℤ) := by
    apply pyRoundInt_le
    push_cast
    linarith
  constructor
  · positivity
  · rw [div_le_iff₀ (by norm_num : (0:ℚ) < 10)]
    have h50 : ((pyRoundInt (q * 10) : ℤ) : ℚ) ≤ (50 : ℚ) := by exact_mod_cast hle
    linarith

/-- C1: for every job and every profile argument, `calculate_match_score`
returns a value in `[0, 5]` that is an integer multiple of `1/10` (one
decimal place), and a `None` profile scores `0.0` regardless of the job. -/
theorem C1_score_range_and_none (profile : Option Profile) (job : Job) :
    MatchScoring.calculate_match_score Option.none job = 0
    ∧ 0 ≤ MatchScoring.calculate_match_score profile job
    ∧ MatchScoring.calculate_match_score profile job ≤ 5
    ∧ ∃ k : ℤ, MatchScoring.calculate_match_score profile job = (k : ℚ) / 10 := by
  refine ⟨rfl, ?_⟩
  match profile with
  | Option.none =>
    have h0 : MatchScoring.calculate_match_score Option.none job = 0 := rfl
    exact ⟨by simp [h0], by simp [h0], 0, by simp [h0]⟩
  | Option.some p =>
    show 0 ≤ MatchScoring.calculate_match_score (Option.some p) job ∧ _
    have hform : MatchScoring.calculate_match_score (Option.some p) job
        = pyRound (min (max (if 0 < MatchScoring.maxPossible p job then
            MatchScoring.totalScore p job / MatchScoring.maxPossible p job * 5 else 0) 0) 5) 1 := rfl
    set n := (if 0 < MatchScoring.maxPossible p job then
      MatchScoring.totalScore p job / MatchScoring.maxPossible p job * 5 else 0) with hn
    have hx0 : 0 ≤ min (max n 0) 5 := le_min (le_max_right n 0) (by norm_num)
    have hx5 : min (max n 0) 5 ≤ 5 := min_le_right _ _
    obtain ⟨hb0, hb5⟩ := pyRound_one_bounds _ hx0 hx5
    refine ⟨by rw [hform]; exact hb0, by rw [hform]; exact hb5, ?_⟩
    exact ⟨pyRoundInt (min (max n 0) 5 * 10), by rw [hform, pyRound_one_eq]⟩

/-- C4: when a job's normalized required-skill and required-certification
sets are both empty, the skills dimension contributes exactly `0.5` to the
total and `3.0` to `max_possible`, and the certifications dimension
contributes exactly `0.1` and `0.3`, whatever the profile holds. -/
theorem C4_empty_requirements_flat_credit (p : Profile) (j : Job)
    (hs : MatchScoring.normalize_list (.list j.required_skills) = ∅)
    (hc : MatchScoring.normalize_list (.list j.required_certifications) = ∅) :
    MatchScoring.skillsDim p j = (5/10, 3)
    ∧ MatchScoring.certsDim p j = (1/10, 3/10) := by
  constructor
  · unfold MatchScoring.skillsDim
    rw [hs]
    simp
  · unfold MatchScoring.certsDim
    rw [hc]
    simp

/-- Witness for C4 at a concrete profile and a job with no requirements. -/
theorem C4_witness :
    MatchScoring.skillsDim
        ⟨"", "", "", "", ["welding"], ["osha 10"]⟩
        ⟨1, "e1", "t", "r", "c", "l", "", [], [], 0, 0⟩ = (5/10, 3)
    ∧ MatchScoring.certsDim
        ⟨"", "", "", "", ["welding"], ["osha 10"]⟩
        ⟨1, "e1", "t", "r", "c", "l", "", [], [], 0, 0⟩ = (1/10, 3/10) :=
  C4_empty_requirements_flat_credit _ _ (by decide) (by decide)

/-- C10: an empty fetched record set makes the refresh skip the
reconciliation/deletion step entirely, so every previously stored job —
with or without applications — is retained; forcing the sync in this
situation still commits and stamps the refresh time. -/
theorem C10_empty_fetch_retains_all (s : JobSync.SyncState) (timeout now : ℕ) :
    (JobSync.syncRefresh s [] now).jobs = s.jobs
    ∧ JobSync.sync_jobs_if_needed s true timeout now [] true
        = Except.ok (JobSync.syncRefresh s [] now) := by
  constructor
  · unfold JobSync.syncRefresh
    simp [JobSync.foldUpsert]
  · unfold JobSync.sync_jobs_if_needed JobSync.shouldRefresh
    cases s.lastSyncAt <;> simp

/-- C6: the sync refreshes exactly when forced, never-synced, or past the
TTL (strictly, default 900 s); otherwise it is a no-op returning the state
unchanged; a successful refresh stamps `lastSyncAt` with the current time,
and a failing commit propagates before the timestamp is ever updated. -/
theorem C6_ttl_refresh_policy (s : JobSync.SyncState) (force : Bool) (timeout now : ℕ)
    (payloads : List JobSync.Payload) (commitOk : Bool) :
    JobSync.JOB_CACHE_TIMEOUT_default = 900
    ∧ (JobSync.shouldRefresh s force timeout now = true ↔
        force = true ∨ s.lastSyncAt = Option.none
        ∨ ∃ t, s.lastSyncAt = Option.some t ∧ timeout < now - t)
    ∧ (JobSync.shouldRefresh s force timeout now = false →
        JobSync.sync_jobs_if_needed s force timeout now payloads commitOk = Except.ok s)
    ∧ (JobSync.shouldRefresh s force timeout now = true → commitOk = true →
        JobSync.sync_jobs_if_needed s force timeout now payloads commitOk
          = Except.ok (JobSync.syncRefresh s payloads now)
        ∧ (JobSync.syncRefresh s payloads now).lastSyncAt = Option.some now)
    ∧ (JobSync.shouldRefresh s force timeout now = true → commitOk = false →
        ∃ e, JobSync.sync_jobs_if_needed s force timeout now payloads commitOk
          = Except.error e ∧ e.lastSyncAt = s.lastSyncAt ∧ e.jobs = s.jobs) := by
  refine ⟨rfl, ?_, ?_, ?_, ?_⟩
  · unfold JobSync.shouldRefresh
    cases hs : s.lastSyncAt with
    | none => simp
    | some t => simp
  · intro h
    unfold JobSync.sync_jobs_if_needed
    rw [h]
    simp
  · intro h hc
    unfold JobSync.sync_jobs_if_needed
    rw [h, hc]
    exact ⟨by simp, rfl⟩
  · intro h hc
    unfold JobSync.sync_jobs_if_needed
    rw [h, hc]
    exact ⟨{ s with lastSyncAt := s.lastSyncAt }, by simp, rfl, rfl⟩

/-- Witness for C6: within the TTL and unforced, the call is a no-op. -/
theorem C6_witness :
    JobSync.sync_jobs_if_needed ⟨[], [], Option.some 50, 0⟩ false 900 100 [] true
      = Except.ok ⟨[], [], Option.some 50, 0⟩ :=
  (C6_ttl_refresh_policy ⟨[], [], Option.some 50, 0⟩ false 900 100 [] true).2.2.1 (by decide)

/-- Shared example: a profile whose skills exactly equal the job's two
required skills, with every other field empty. -/
def exProfile1 : Profile := ⟨"", "", "", "", ["cooking", "food safety"], []⟩

/-- Shared example: a job requiring exactly `cooking` and `food safety`,
no certifications, no description, no role text. -/
def exJob1 : Job :=
  ⟨1, "j1", "Sous Chef", "", "Acme Corp", "New York", "",
   ["cooking", "food safety"], [], 0, 0⟩

theorem skillsDim_ex1 : MatchScoring.skillsDim exProfile1 exJob1 = (3, 3) := by
  have hjs : MatchScoring.normalize_list (.list exJob1.required_skills)
      = ({"cooking", "food safety"} : Finset String) := by decide
  have hps : MatchScoring.normalize_list (.list exProfile1.skills_list)
      = ({"cooking", "food safety"} : Finset String) := by decide
  simp only [MatchScoring.skillsDim, hjs, hps]
  rw [if_pos (by decide)]
  rw [show (({"cooking", "food safety"} : Finset String)
        ∩ ({"cooking", "food safety"} : Finset String)).card = 2 from by decide]
  rw [show ({"cooking", "food safety"} : Finset String)
        \ ({"cooking", "food safety"} : Finset String) = ∅ from by decide]
  rw [show ({"cooking", "food safety"} : Finset String).card = 2 from by decide]
  rw [Finset.sum_empty]
  norm_num

theorem keywordDim_ex1 : MatchScoring.keywordDim exProfile1 exJob1 = (0, 15/10) := rfl

theorem certsDim_ex1 : MatchScoring.certsDim exProfile1 exJob1 = (1/10, 3/10) := rfl

theorem roleDim_ex1 : MatchScoring.roleDim exProfile1 exJob1 = (0, 2/10) := rfl

theorem maxPossible_ex1 : MatchScoring.maxPossible exProfile1 exJob1 = 5 := by
  unfold MatchScoring.maxPossible
  rw [skillsDim_ex1, keywordDim_ex1, certsDim_ex1, roleDim_ex1]
  norm_num

theorem totalScore_ex1 : MatchScoring.totalScore exProfile1 exJob1 = 31/10 := by
  unfold MatchScoring.totalScore
  rw [skillsDim_ex1, keywordDim_ex1, certsDim_ex1, roleDim_ex1]
  norm_num

theorem score_ex1 :
    MatchScoring.calculate_match_score (Option.some exProfile1) exJob1 = 31/10 := by
  show pyRound (min (max (if 0 < MatchScoring.maxPossible exProfile1 exJob1 then
      MatchScoring.totalScore exProfile1 exJob1
        / MatchScoring.maxPossible exProfile1 exJob1 * 5 else 0) 0) 5) 1 = 31/10
  rw [totalScore_ex1, maxPossible_ex1]
  norm_num [pyRound, pyRoundInt, max_def, min_def]

theorem helpers_score_ex1 :
    Helpers.calculate_match_score (Option.some exProfile1) exJob1 = 1 := by
  have hjs : Helpers.normalize_iterable exJob1.required_skills
      = ({"cooking", "food safety"} : Finset String) := by decide
  have hps : Helpers.normalize_iterable exProfile1.skills_list
      = ({"cooking", "food safety"} : Finset String) := by decide
  have hjc : Helpers.normalize_iterable exJob1.required_certifications
      = (∅ : Finset String) := by decide
  have hpc : Helpers.normalize_iterable exProfile1.certifications_list
      = (∅ : Finset String) := by decide
  have hfind : Helpers.JOB_ROLE_REQUIREMENTS.find? (fun entry => entry.1 = exJob1.role)
      = Option.none := by decide
  simp only [Helpers.calculate_match_score, hjs, hps, hjc, hpc, hfind]
  rw [if_neg (by decide)]
  rw [show (({"cooking", "food safety"} : Finset String)
        ∩ ({"cooking", "food safety"} : Finset String)).card = 2 from by decide]
  rw [show ((∅ : Finset String) ∩ (∅ : Finset String)).card = 0 from by decide]
  rw [show ({"cooking", "food safety"} : Finset String).card = 2 from by decide]
  rw [show ((∅ : Finset String)).card = 0 from by decide]
  norm_num [pyRound, pyRoundInt, max_def, min_def]

/-- C9: the two scoring implementations disagree: on a profile exactly
matching a job's two required skills the simple Jaccard scorer of
`utils/helpers.py` returns `1.0` while the weighted fuzzy scorer of
`utils/match_scoring.py` returns `3.1`, so the functions are not
extensionally equal. -/
theorem C9_scorers_disagree :
    Helpers.calculate_match_score (Option.some exProfile1) exJob1
      ≠ MatchScoring.calculate_match_score (Option.some exProfile1) exJob1 := by
  rw [helpers_score_ex1, score_ex1]
  norm_num

/-- C3 counterexample: on the exact-skill-match example the accumulated
denominator is `5.0`, not the `3.0 + 0.2 = 3.2` the claim states — the
keyword and certification dimensions still add `1.5` and `0.3` to
`max_possible` even with no inputs. -/
theorem C3_counterexample :
    MatchScoring.maxPossible exProfile1 exJob1 = 5
    ∧ MatchScoring.maxPossible exProfile1 exJob1 ≠ 16/5 := by
  rw [maxPossible_ex1]
  norm_num

/-- C3 (amended): on the exact-skill-match example the skills sub-score is
`2/2 = 1.0` contributing the full `3.0`, the denominator accumulates all
four dimensions (`3.0 + 1.5 + 0.3 + 0.2 = 5.0`), the certification
dimension degrades to its `0.1` no-input credit while the keyword
dimension contributes `0`, and the final score is `3.1`. -/
theorem C3_exact_skill_match_score :
    MatchScoring.skillsDim exProfile1 exJob1 = (3, 3)
    ∧ MatchScoring.keywordDim exProfile1 exJob1 = (0, 15/10)
    ∧ MatchScoring.certsDim exProfile1 exJob1 = (1/10, 3/10)
    ∧ MatchScoring.roleDim exProfile1 exJob1 = (0, 2/10)
    ∧ MatchScoring.maxPossible exProfile1 exJob1 = 5
    ∧ MatchScoring.calculate_match_score (Option.some exProfile1) exJob1 = 31/10 :=
  ⟨skillsDim_ex1, keywordDim_ex1, certsDim_ex1, roleDim_ex1, maxPossible_ex1, score_ex1⟩

theorem dropWhile_idem (p : Char → Bool) (l : List Char) :
    (l.dropWhile p).dropWhile p = l.dropWhile p := by
  induction l with
  | nil => rfl
  | cons a t ih =>
    by_cases h : p a = true
    · rw [List.dropWhile_cons_of_pos h]
      exact ih
    · rw [List.dropWhile_cons_of_neg h, List.dropWhile_cons_of_neg h]

theorem head?_dropWhile (p : Char → Bool) (l : List Char) :
    ∀ a, (l.dropWhile p).head? = some a → p a = false := by
  intro a ha
  have h := List.head?_dropWhile_not p l
  rw [ha] at h
  exact h

theorem dropWhile_prefix_eq_self (p : Char → Bool) {A B : List Char}
    (hpre : B <+: A) (hhead : ∀ a, A.head? = some a → p a = false) :
    B.dropWhile p = B := by
  match B with
  | [] => rfl
  | b :: B' =>
    obtain ⟨t, ht⟩ := hpre
    have hb : p b = false := by
      apply hhead
      rw [← ht]
      simp
    exact List.dropWhile_cons_of_neg (by simp [hb])

theorem dropWhile_rdrop_self (p : Char → Bool) (l : List Char) :
    (((l.dropWhile p).reverse.dropWhile p).reverse).dropWhile p
      = ((l.dropWhile p).reverse.dropWhile p).reverse := by
  apply dropWhile_prefix_eq_self (A := l.dropWhile p)
  · apply List.reverse_suffix.mp
    rw [List.reverse_reverse]
    exact List.dropWhile_suffix p
  · exact head?_dropWhile p l

theorem stripList_idem (l : List Char) : stripList (stripList l) = stripList l := by
  have hdB : (stripList l).dropWhile Char.isWhitespace = stripList l :=
    dropWhile_rdrop_self Char.isWhitespace l
  show (((stripList l).dropWhile Char.isWhitespace).reverse.dropWhile
      Char.isWhitespace).reverse = stripList l
  rw [hdB]
  have h2 : (stripList l).reverse
      = (l.dropWhile Char.isWhitespace).reverse.dropWhile Char.isWhitespace := by
    show (((l.dropWhile Char.isWhitespace).reverse.dropWhile
        Char.isWhitespace).reverse).reverse = _
    rw [List.reverse_reverse]
  rw [h2, dropWhile_idem]
  rfl

theorem pyStrip_idem (s : String) : pyStrip (pyStrip s) = pyStrip s := by
  show String.mk (stripList (String.mk (stripList s.data)).data) = _
  rw [show (String.mk (stripList s.data)).data = stripList s.data from rfl, stripList_idem]
  rfl

theorem pySorted_strip_spec (lst : List String) :
    (pySorted ((lst.filter (fun s => pyStrip s ≠ "")).map pyStrip)).Nodup
    ∧ ∀ x ∈ pySorted ((lst.filter (fun s => pyStrip s ≠ "")).map pyStrip),
        pyStrip x = x ∧ x ≠ "" := by
  have hperm := List.perm_insertionSort (fun a b => strLe a b = true)
      ((lst.filter (fun s => pyStrip s ≠ "")).map pyStrip).dedup
  constructor
  · exact hperm.nodup_iff.mpr (List.nodup_dedup _)
  · intro x hx
    have hx' : x ∈ ((lst.filter (fun s => pyStrip s ≠ "")).map pyStrip).dedup :=
      hperm.mem_iff.mp hx
    rw [List.mem_dedup] at hx'
    obtain ⟨y, hy, rfl⟩ := List.mem_map.mp hx'
    have hq := (List.mem_filter.mp hy).2
    simp only [ne_eq, decide_eq_true_eq] at hq
    exact ⟨pyStrip_idem y, hq⟩

/-- C7 (amended): every value written through the `Profile.skills` /
`Profile.certifications` listeners is stored deduplicated, with entries
whitespace-trimmed and non-empty (case, however, is preserved as given —
the listeners do not lowercase). -/
theorem C7_write_time_normalization (v : PyStrs) :
    ((ProfileModel.normalize_skills v).Nodup
      ∧ ∀ x ∈ ProfileModel.normalize_skills v, pyStrip x = x ∧ x ≠ "")
    ∧ ((ProfileModel.normalize_certs v).Nodup
      ∧ ∀ x ∈ ProfileModel.normalize_certs v, pyStrip x = x ∧ x ≠ "") := by
  match v with
  | .none => exact ⟨⟨List.nodup_nil, by intro x hx; cases hx⟩,
      ⟨List.nodup_nil, by intro x hx; cases hx⟩⟩
  | .list l => exact ⟨pySorted_strip_spec l, pySorted_strip_spec l⟩
  | .str s => exact ⟨pySorted_strip_spec (pySplitComma s), pySorted_strip_spec (pySplitComma s)⟩

/-- C7 counterexample: the value `["Cooking "]` is stored as
`["Cooking"]` — trimmed and deduplicated but NOT lowercased, refuting the
claim that stored entries are lowercase. -/
theorem C7_counterexample :
    ProfileModel.normalize_skills (.list ["Cooking "]) = ["Cooking"]
    ∧ pyLower "Cooking" ≠ "Cooking" := by decide

theorem pyStrip_singleton (c : Char) :
    pyStrip (String.mk [c]) = if c.isWhitespace then "" else String.mk [c] := by
  by_cases h : c.isWhitespace
  · simp [pyStrip, stripList, h]
  · simp [pyStrip, stripList, h]

/-- C8 (amended): the scorer's normalizer maps `None` and empty inputs to
`∅`; a list input to the set of normalized (lowercased, trimmed) items
whose strip is non-blank; and a single string input — which Python
iterates character by character — to the set of normalized single
characters that are not whitespace, NOT to its comma-separated tokens. -/
theorem C8_normalizer_contract :
    MatchScoring.normalize_list PyStrs.none = ∅
    ∧ MatchScoring.normalize_list (.list []) = ∅
    ∧ MatchScoring.normalize_list (.str "") = ∅
    ∧ (∀ l x, x ∈ MatchScoring.normalize_list (.list l) ↔
        ∃ item ∈ l, pyStrip item ≠ "" ∧ x = MatchScoring.normalize_text item)
    ∧ (∀ s x, x ∈ MatchScoring.normalize_list (.str s) ↔
        ∃ c ∈ s.data, c.isWhitespace = false
          ∧ x = MatchScoring.normalize_text (String.mk [c])) := by
  refine ⟨rfl, rfl, rfl, ?_, ?_⟩
  · intro l x
    by_cases hl : l = []
    · subst hl
      simp [MatchScoring.normalize_list]
    · simp only [MatchScoring.normalize_list, if_neg hl, List.mem_toFinset, List.mem_map,
        List.mem_filter, decide_eq_true_eq]
      constructor
      · rintro ⟨a, ⟨ha, hq⟩, rfl⟩
        exact ⟨a, ha, hq, rfl⟩
      · rintro ⟨item, hitem, hq, rfl⟩
        exact ⟨item, ⟨hitem, hq⟩, rfl⟩
  · intro s x
    by_cases hs : s = ""
    · subst hs
      constructor
      · intro hx
        simp [MatchScoring.normalize_list] at hx
      · rintro ⟨c, hc, _⟩
        rw [show ("" : String).data = [] from rfl] at hc
        cases hc
    · simp only [MatchScoring.normalize_list, if_neg hs, List.mem_toFinset, List.mem_map,
        List.mem_filter, decide_eq_true_eq]
      constructor
      · rintro ⟨a, ⟨⟨c, hc, rfl⟩, hq⟩, rfl⟩
        refine ⟨c, hc, ?_, rfl⟩
        rw [pyStrip_singleton] at hq
        by_cases hws : c.isWhitespace
        · rw [if_pos hws] at hq
          exact absurd rfl hq
        · exact Bool.eq_false_iff.mpr hws
      · rintro ⟨c, hc, hws, rfl⟩
        refine ⟨String.mk [c], ⟨⟨c, hc, rfl⟩, ?_⟩, rfl⟩
        rw [pyStrip_singleton, if_neg (by rw [hws]; exact Bool.false_ne_true)]
        simp [String.ext_iff]

/-- C8 counterexample: on the comma-joined string
`"Cooking, Food Safety"` the normalizer returns the set of its individual
characters, not the claimed `{"cooking", "food safety"}`. -/
theorem C8_counterexample :
    MatchScoring.normalize_list (.str "Cooking, Food Safety")
      ≠ ({"cooking", "food safety"} : Finset String) := by decide

namespace MatchScoring

/-- The word-overlap ratio the fuzzy matcher computes in its word-level
branch: `|words1 ∩ words2| / |words1 ∪ words2|`. -/
def overlapRatio (t1 t2 : String) : ℚ :=
  ((wordSet t1 ∩ wordSet t2).card : ℚ) / ((wordSet t1 ∪ wordSet t2).card : ℚ)

end MatchScoring

theorem runsAux_ne_nil (p : Char → Bool) :
    ∀ (l acc : List Char), (acc ≠ [] ∨ ∃ c ∈ l, p c = true) → runsAux p l acc ≠ [] := by
  intro l
  induction l with
  | nil =>
    intro acc h
    rcases h with h | ⟨c, hc, _⟩
    · simp only [runsAux, List.isEmpty_iff]
      rw [if_neg h]
      exact List.cons_ne_nil _ _
    · cases hc
  | cons a t ih =>
    intro acc h
    by_cases hpa : p a = true
    · simp only [runsAux]
      rw [if_pos hpa]
      exact ih (a :: acc) (Or.inl (List.cons_ne_nil a acc))
    · simp only [runsAux]
      rw [if_neg hpa]
      by_cases hacc : acc.isEmpty = true
      · rw [if_pos hacc]
        apply ih [] (Or.inr ?_)
        rcases h with h | ⟨c, hc, hpc⟩
        · exact absurd (List.isEmpty_iff.mp hacc) h
        · rcases List.mem_cons.mp hc with rfl | hct
          · exact absurd hpc hpa
          · exact ⟨c, hct, hpc⟩
      · rw [if_neg hacc]
        exact List.cons_ne_nil _ _

theorem dropWhile_eq_self_of_stripList_eq (l : List Char)
    (h : stripList l = l) : l.dropWhile Char.isWhitespace = l := by
  apply List.Sublist.eq_of_length (List.dropWhile_sublist Char.isWhitespace)
  have h1 : (stripList l).length ≤ (l.dropWhile Char.isWhitespace).length := by
    show ((((l.dropWhile Char.isWhitespace).reverse.dropWhile
        Char.isWhitespace)).reverse).length ≤ _
    rw [List.length_reverse]
    calc ((l.dropWhile Char.isWhitespace).reverse.dropWhile Char.isWhitespace).length
        ≤ (l.dropWhile Char.isWhitespace).reverse.length :=
          (List.dropWhile_sublist Char.isWhitespace).length_le
      _ = (l.dropWhile Char.isWhitespace).length := List.length_reverse _
  have h2 : (l.dropWhile Char.isWhitespace).length ≤ l.length :=
    (List.dropWhile_sublist Char.isWhitespace).length_le
  rw [h] at h1
  omega

theorem head_not_ws_of_normalized (c : Char) (t : List Char)
    (h : stripList (c :: t) = c :: t) : c.isWhitespace = false := by
  have hd := dropWhile_eq_self_of_stripList_eq (c :: t) h
  by_cases hws : c.isWhitespace = true
  · rw [List.dropWhile_cons_of_pos hws] at hd
    have := (List.dropWhile_sublist (l := t) Char.isWhitespace).length_le
    rw [hd] at this
    simp at this
  · exact Bool.eq_false_iff.mpr hws

theorem wordSet_nonempty_of_normalized (s : String)
    (hnorm : pyStrip s = s) (hne : s ≠ "") : wordSet s ≠ ∅ := by
  have hdata : stripList s.data = s.data := by
    have : (pyStrip s).data = s.data := by rw [hnorm]
    exact this
  have hlist : s.data ≠ [] := by
    intro hd
    apply hne
    cases s with
    | mk d => cases hd; rfl
  match hsd : s.data with
  | [] => exact absurd hsd hlist
  | c :: t =>
    rw [hsd] at hdata
    have hc : c.isWhitespace = false := head_not_ws_of_normalized c t hdata
    unfold wordSet pySplit
    rw [hsd]
    intro hempty
    rw [List.toFinset_eq_empty_iff, List.map_eq_nil_iff] at hempty
    exact runsAux_ne_nil (fun c => !c.isWhitespace) (c :: t) []
      (Or.inr ⟨c, List.mem_cons_self c t, by simp [hc]⟩) hempty

theorem pyIn_empty_left (t : String) : pyIn "" t = true := by
  show infixCheck [] t.data = true
  cases t.data with
  | nil => rfl
  | cons c l => rfl

theorem fuzzy_match_word_branch (t1 t2 : String)
    (h1 : MatchScoring.normalize_text t1 = t1)
    (h2 : MatchScoring.normalize_text t2 = t2)
    (hne : t1 ≠ t2) (hsub : (pyIn t1 t2 || pyIn t2 t1) = false) :
    MatchScoring.fuzzy_match t1 t2 =
      if MatchScoring.overlapRatio t1 t2 ≥ 1/2
      then 6/10 + (MatchScoring.overlapRatio t1 t2 - 1/2) * (8/10) else 0 := by
  obtain ⟨hsub1, hsub2⟩ := Bool.or_eq_false_iff.mp hsub
  have ht1 : t1 ≠ "" := by
    intro h
    rw [h, pyIn_empty_left] at hsub1
    cases hsub1
  have ht2 : t2 ≠ "" := by
    intro h
    rw [h, pyIn_empty_left] at hsub2
    cases hsub2
  have hstrip1 : pyStrip t1 = t1 := by
    conv_lhs => rw [← h1]
    rw [MatchScoring.normalize_text, pyStrip_idem]
    exact h1
  have hstrip2 : pyStrip t2 = t2 := by
    conv_lhs => rw [← h2]
    rw [MatchScoring.normalize_text, pyStrip_idem]
    exact h2
  have hw1 : wordSet t1 ≠ ∅ := wordSet_nonempty_of_normalized t1 hstrip1 ht1
  have hw2 : wordSet t2 ≠ ∅ := wordSet_nonempty_of_normalized t2 hstrip2 ht2
  have hcard : (wordSet t1 ∪ wordSet t2).card ≠ 0 := by
    rw [Ne, Finset.card_eq_zero, Finset.union_eq_empty]
    intro ⟨a, _⟩
    exact hw1 a
  simp only [MatchScoring.fuzzy_match, h1, h2]
  rw [if_neg hne, if_neg (by rw [hsub]; exact Bool.false_ne_true),
      if_neg (by rw [not_or]; exact ⟨hw1, hw2⟩), if_neg hcard]
  rfl

theorem overlapRatio_nonneg_le_one (t1 t2 : String) (hw1 : wordSet t1 ≠ ∅) :
    0 ≤ MatchScoring.overlapRatio t1 t2 ∧ MatchScoring.overlapRatio t1 t2 ≤ 1 := by
  have hpos : 0 < ((wordSet t1 ∪ wordSet t2).card : ℚ) := by
    have : 0 < (wordSet t1 ∪ wordSet t2).card := by
      rw [Finset.card_pos]
      rcases Finset.nonempty_iff_ne_empty.mpr hw1 with ⟨a, ha⟩
      exact ⟨a, Finset.mem_union_left _ ha⟩
    exact_mod_cast this
  have hle : (wordSet t1 ∩ wordSet t2).card ≤ (wordSet t1 ∪ wordSet t2).card :=
    Finset.card_le_card (Finset.inter_subset_union)
  constructor
  · apply div_nonneg (by positivity) (le_of_lt hpos)
  · rw [MatchScoring.overlapRatio, div_le_one hpos]
    exact_mod_cast hle

theorem wordSet_ne_empty_of_no_substring (t1 t2 : String)
    (h1 : MatchScoring.normalize_text t1 = t1)
    (hsub : (pyIn t1 t2 || pyIn t2 t1) = false) : wordSet t1 ≠ ∅ := by
  obtain ⟨hsub1, _⟩ := Bool.or_eq_false_iff.mp hsub
  have ht1 : t1 ≠ "" := by
    intro h
    rw [h, pyIn_empty_left] at hsub1
    cases hsub1
  have hstrip1 : pyStrip t1 = t1 := by
    conv_lhs => rw [← h1]
    rw [MatchScoring.normalize_text, pyStrip_idem]
    exact h1
  exact wordSet_nonempty_of_normalized t1 hstrip1 ht1

theorem isPrefixOf_self (l : List Char) : l.isPrefixOf l = true := by
  induction l with
  | nil => rfl
  | cons c t ih => simp [List.isPrefixOf, ih]

theorem ne_of_no_substring (a b : String)
    (hsub : (pyIn a b || pyIn b a) = false) : a ≠ b := by
  intro heq
  subst heq
  obtain ⟨hsub1, _⟩ := Bool.or_eq_false_iff.mp hsub
  have hrefl : infixCheck a.data a.data = true := by
    cases hd : a.data with
    | nil => rfl
    | cons c l =>
      show (List.isPrefixOf (c :: l) (c :: l) || _) = true
      rw [Bool.or_eq_true]
      left
      exact isPrefixOf_self (c :: l)
  rw [show pyIn a a = infixCheck a.data a.data from rfl, hrefl] at hsub1
  cases hsub1

/-- C2: on normalized strings `_fuzzy_match` returns `1.0` when they are
identical, `0.8` when one is a substring of the other, and otherwise
`0.6 + (r - 0.5) * 0.8` when the word-overlap ratio `r` is at least `0.5`
and exactly `0.0` when `r < 0.5`; in the overlap branch with `r ≥ 0.5` the
output lies in `[0.6, 1.0]` and is non-decreasing in `r`. -/
theorem C2_fuzzy_match_cases (t1 t2 : String)
    (h1 : MatchScoring.normalize_text t1 = t1)
    (h2 : MatchScoring.normalize_text t2 = t2) :
    (t1 = t2 → MatchScoring.fuzzy_match t1 t2 = 1)
    ∧ (t1 ≠ t2 → (pyIn t1 t2 || pyIn t2 t1) = true →
        MatchScoring.fuzzy_match t1 t2 = 8/10)
    ∧ ((pyIn t1 t2 || pyIn t2 t1) = false →
        (1/2 ≤ MatchScoring.overlapRatio t1 t2 →
          MatchScoring.fuzzy_match t1 t2
            = 6/10 + (MatchScoring.overlapRatio t1 t2 - 1/2) * (8/10)
          ∧ 6/10 ≤ MatchScoring.fuzzy_match t1 t2
          ∧ MatchScoring.fuzzy_match t1 t2 ≤ 1)
        ∧ (MatchScoring.overlapRatio t1 t2 < 1/2 →
          MatchScoring.fuzzy_match t1 t2 = 0))
    ∧ (∀ t3 t4, MatchScoring.normalize_text t3 = t3 → MatchScoring.normalize_text t4 = t4 →
        (pyIn t1 t2 || pyIn t2 t1) = false → (pyIn t3 t4 || pyIn t4 t3) = false →
        1/2 ≤ MatchScoring.overlapRatio t1 t2 →
        MatchScoring.overlapRatio t1 t2 ≤ MatchScoring.overlapRatio t3 t4 →
        MatchScoring.fuzzy_match t1 t2 ≤ MatchScoring.fuzzy_match t3 t4) := by
  refine ⟨?_, ?_, ?_, ?_⟩
  · intro heq
    subst heq
    simp [MatchScoring.fuzzy_match]
  · intro hne hsub
    simp only [MatchScoring.fuzzy_match, h1, h2]
    rw [if_neg hne, if_pos hsub]
  · intro hsub
    have hne := ne_of_no_substring t1 t2 hsub
    have hbr := fuzzy_match_word_branch t1 t2 h1 h2 hne hsub
    have hw1 := wordSet_ne_empty_of_no_substring t1 t2 h1 hsub
    obtain ⟨_, hle1⟩ := overlapRatio_nonneg_le_one t1 t2 hw1
    constructor
    · intro hge
      rw [hbr, if_pos hge]
      refine ⟨rfl, by linarith, by linarith⟩
    · intro hlt
      rw [hbr, if_neg (not_le.mpr hlt)]
  · intro t3 t4 h3 h4 hsub12 hsub34 hge12 hmono
    have hbr12 := fuzzy_match_word_branch t1 t2 h1 h2 (ne_of_no_substring t1 t2 hsub12) hsub12
    have hbr34 := fuzzy_match_word_branch t3 t4 h3 h4 (ne_of_no_substring t3 t4 hsub34) hsub34
    have hge34 : 1/2 ≤ MatchScoring.overlapRatio t3 t4 := le_trans hge12 hmono
    rw [hbr12, hbr34, if_pos hge12, if_pos hge34]
    linarith

/-- Witness for C2: the normalized pair `"a b c"` / `"a b d"` shares two
of four distinct words, ratio `1/2`, giving exactly `0.6`. -/
theorem C2_witness : MatchScoring.fuzzy_match "a b c" "a b d" = 6/10 := by
  have hr : MatchScoring.overlapRatio "a b c" "a b d" = 2/4 := by
    rw [MatchScoring.overlapRatio]
    rw [show (wordSet "a b c" ∩ wordSet "a b d").card = 2 from by decide]
    rw [show (wordSet "a b c" ∪ wordSet "a b d").card = 4 from by decide]
    norm_num
  have h := (((C2_fuzzy_match_cases "a b c" "a b d" (by decide) (by decide)).2.2.1
      (by decide)).1 (by rw [hr]; norm_num)).1
  rw [h, hr]
  norm_num

namespace JobSync

theorem applyPayload_external_id (p : Payload) (j : Job) :
    (applyPayload p j).external_id = j.external_id := rfl

theorem matchesPayload_applyPayload (p : Payload) (j : Job)
    (hid : j.external_id = p.id) : matchesPayload (applyPayload p j) p := by
  refine ⟨hid, rfl, rfl, rfl, rfl, rfl, rfl, rfl, ?_⟩
  intro t ht
  show (match p.posted_at with
    | Option.some t => t
    | Option.none => j.posted_at) = t
  rw [ht]

theorem countEid_nil (eid : String) : countEid [] eid = 0 := rfl

theorem countEid_le_one_of_nodup (jobs : List Job)
    (h : (jobs.map (fun j => j.external_id)).Nodup) :
    ∀ eid, countEid jobs eid ≤ 1 := by
  induction jobs with
  | nil =>
    intro eid
    rw [countEid_nil]
    omega
  | cons a t ih =>
    rw [List.map_cons, List.nodup_cons] at h
    intro eid
    rw [countEid, List.filter_cons]
    by_cases ha : a.external_id = eid
    · rw [if_pos (by simp [ha])]
      have hzero : countEid t eid = 0 := by
        rw [countEid, List.length_eq_zero, List.filter_eq_nil_iff]
        intro j hj hjp
        apply h.1
        have hjeid : j.external_id = eid := by simpa using hjp
        exact List.mem_map.mpr ⟨j, hj, by rw [hjeid, ha]⟩
      rw [List.length_cons]
      rw [countEid] at hzero
      omega
    · rw [if_neg (by simp [ha])]
      exact ih h.2 eid

theorem filter_map_upsert (jobs : List Job) (p : Payload) (eid : String)
    (hne : eid ≠ p.id) :
    (jobs.map (fun j => if j.external_id = p.id then applyPayload p j else j)).filter
        (fun j => j.external_id = eid)
      = jobs.filter (fun j => j.external_id = eid) := by
  induction jobs with
  | nil => rfl
  | cons a t ih =>
    rw [List.map_cons, List.filter_cons, List.filter_cons]
    by_cases ha : a.external_id = p.id
    · rw [if_pos ha]
      have h2 : (applyPayload p a).external_id = a.external_id := rfl
      have hnot : ¬(a.external_id = eid) := by
        rw [ha]
        exact fun hh => hne hh.symm
      rw [if_neg (by simp [h2, hnot]), if_neg (by simp [hnot])]
      exact ih
    · rw [if_neg ha]
      by_cases haeid : a.external_id = eid
      · rw [if_pos (by simp [haeid]), if_pos (by simp [haeid]), ih]
      · rw [if_neg (by simp [haeid]), if_neg (by simp [haeid])]
        exact ih

theorem countEid_pos_of_any (jobs : List Job) (eid : String)
    (hany : jobs.any (fun j => j.external_id = eid) = true) :
    1 ≤ countEid jobs eid := by
  obtain ⟨j, hj, hp⟩ := List.any_eq_true.mp hany
  have : j ∈ jobs.filter (fun j => j.external_id = eid) :=
    List.mem_filter.mpr ⟨hj, hp⟩
  rw [countEid]
  exact List.length_pos.mpr (List.ne_nil_of_mem this)

theorem countEid_eq_zero_of_not_any (jobs : List Job) (eid : String)
    (hany : jobs.any (fun j => j.external_id = eid) = false) :
    countEid jobs eid = 0 := by
  rw [countEid, List.length_eq_zero, List.filter_eq_nil_iff]
  intro j hj hp
  rw [List.any_eq_false] at hany
  exact hany j hj hp

end JobSync

namespace JobSync

theorem upsertJob_filter_ne (jobs : List Job) (nid now : ℕ) (p : Payload)
    (eid : String) (hne : eid ≠ p.id) :
    (upsertJob jobs nid now p).1.filter (fun j => j.external_id = eid)
      = jobs.filter (fun j => j.external_id = eid) := by
  unfold upsertJob
  by_cases hany : jobs.any (fun j => j.external_id = p.id) = true
  · rw [if_pos hany]
    exact filter_map_upsert jobs p eid hne
  · rw [if_neg hany]
    show (jobs ++ [applyPayload p (newJob p.id nid now)]).filter _ = _
    rw [List.filter_append]
    have hnew : (applyPayload p (newJob p.id nid now)).external_id = p.id := rfl
    rw [show ([applyPayload p (newJob p.id nid now)].filter
        (fun j => j.external_id = eid)) = [] from by
      rw [List.filter_eq_nil_iff]
      intro j hj
      rw [List.mem_singleton] at hj
      subst hj
      simp [hnew]
      exact fun hh => hne hh.symm]
    rw [List.append_nil]

theorem countEid_map_upsert (jobs : List Job) (p : Payload) :
    countEid (jobs.map (fun j =>
      if j.external_id = p.id then applyPayload p j else j)) p.id
      = countEid jobs p.id := by
  unfold countEid
  induction jobs with
  | nil => rfl
  | cons a t ih =>
    rw [List.map_cons, List.filter_cons, List.filter_cons]
    by_cases ha : a.external_id = p.id
    · rw [if_pos ha]
      have h2 : (applyPayload p a).external_id = a.external_id := rfl
      rw [if_pos (by simp [h2, ha]), if_pos (by simp [ha])]
      simp only [List.length_cons, ih]
    · rw [if_neg ha, if_neg (by simp [ha]), if_neg (by simp [ha])]
      exact ih

theorem upsertJob_self_spec (jobs : List Job) (nid now : ℕ) (p : Payload)
    (hcount : countEid jobs p.id ≤ 1) :
    countEid (upsertJob jobs nid now p).1 p.id = 1
    ∧ ∀ j ∈ (upsertJob jobs nid now p).1, j.external_id = p.id → matchesPayload j p := by
  unfold upsertJob
  by_cases hany : jobs.any (fun j => j.external_id = p.id) = true
  · rw [if_pos hany]
    constructor
    · have hmap := countEid_map_upsert jobs p
      show countEid (jobs.map (fun j =>
        if j.external_id = p.id then applyPayload p j else j)) p.id = 1
      rw [hmap]
      have := countEid_pos_of_any jobs p.id hany
      omega
    · intro j hj hjid
      obtain ⟨j0, hj0, rfl⟩ := List.mem_map.mp hj
      by_cases h0 : j0.external_id = p.id
      · rw [if_pos h0]
        exact matchesPayload_applyPayload p j0 h0
      · rw [if_neg h0] at hjid ⊢
        exact absurd hjid h0
  · rw [if_neg hany]
    have hzero : countEid jobs p.id = 0 :=
      countEid_eq_zero_of_not_any jobs p.id (Bool.eq_false_iff.mpr hany)
    have hnew : (applyPayload p (newJob p.id nid now)).external_id = p.id := rfl
    constructor
    · show countEid (jobs ++ [applyPayload p (newJob p.id nid now)]) p.id = 1
      rw [countEid, List.filter_append]
      rw [countEid, List.length_eq_zero] at hzero
      rw [hzero, List.nil_append]
      rw [show ([applyPayload p (newJob p.id nid now)].filter
          (fun j => j.external_id = p.id)) = [applyPayload p (newJob p.id nid now)] from by
        rw [List.filter_eq_self]
        intro j hj
        rw [List.mem_singleton] at hj
        subst hj
        simp [hnew]]
      rfl
    · intro j hj hjid
      rcases List.mem_append.mp hj with hjl | hjr
      · exfalso
        have hany' := Bool.eq_false_iff.mpr hany
        rw [List.any_eq_false] at hany'
        exact hany' j hjl (by simp [hjid])
      · rw [List.mem_singleton] at hjr
        subst hjr
        exact matchesPayload_applyPayload p (newJob p.id nid now) rfl

theorem upsertJob_count_le (jobs : List Job) (nid now : ℕ) (p : Payload)
    (eid : String) (h : countEid jobs eid ≤ 1) :
    countEid (upsertJob jobs nid now p).1 eid ≤ 1 := by
  by_cases he : eid = p.id
  · subst he
    rw [(upsertJob_self_spec jobs nid now p h).1]
  · rw [countEid, upsertJob_filter_ne jobs nid now p eid he]
    exact h

end JobSync

namespace JobSync

theorem foldUpsert_cons (jobs : List Job) (nid now : ℕ) (q : Payload)
    (t : List Payload) :
    foldUpsert jobs nid now (q :: t)
      = foldUpsert (upsertJob jobs nid now q).1 (upsertJob jobs nid now q).2 now t := rfl

theorem foldUpsert_filter_not_mem (payloads : List Payload) :
    ∀ (jobs : List Job) (nid now : ℕ) (eid : String),
    eid ∉ payloads.map (fun p => p.id) →
    (foldUpsert jobs nid now payloads).1.filter (fun j => j.external_id = eid)
      = jobs.filter (fun j => j.external_id = eid) := by
  induction payloads with
  | nil =>
    intro jobs nid now eid _
    rfl
  | cons q t ih =>
    intro jobs nid now eid hnot
    rw [List.map_cons, List.mem_cons, not_or] at hnot
    rw [foldUpsert_cons, ih _ _ now eid hnot.2]
    exact upsertJob_filter_ne jobs nid now q eid hnot.1

theorem foldUpsert_count_le (payloads : List Payload) :
    ∀ (jobs : List Job) (nid now : ℕ),
    (∀ eid, countEid jobs eid ≤ 1) →
    ∀ eid, countEid (foldUpsert jobs nid now payloads).1 eid ≤ 1 := by
  induction payloads with
  | nil =>
    intro jobs nid now h eid
    exact h eid
  | cons q t ih =>
    intro jobs nid now h eid
    rw [foldUpsert_cons]
    exact ih _ _ now (fun e => upsertJob_count_le jobs nid now q e (h e)) eid

theorem foldUpsert_payload_spec (payloads : List Payload) :
    ∀ (jobs : List Job) (nid now : ℕ),
    (∀ eid, countEid jobs eid ≤ 1) →
    (payloads.map (fun p => p.id)).Nodup →
    ∀ p ∈ payloads,
      countEid (foldUpsert jobs nid now payloads).1 p.id = 1
      ∧ ∀ j ∈ (foldUpsert jobs nid now payloads).1,
          j.external_id = p.id → matchesPayload j p := by
  induction payloads with
  | nil =>
    intro jobs nid now _ _ p hp
    cases hp
  | cons q t ih =>
    intro jobs nid now huniq hnodup p hp
    rw [List.map_cons, List.nodup_cons] at hnodup
    have hstep_uniq : ∀ eid, countEid (upsertJob jobs nid now q).1 eid ≤ 1 :=
      fun e => upsertJob_count_le jobs nid now q e (huniq e)
    rcases List.mem_cons.mp hp with heq | hpt
    · subst heq
      have hspec := upsertJob_self_spec jobs nid now p (huniq p.id)
      constructor
      · rw [foldUpsert_cons, countEid,
          foldUpsert_filter_not_mem t _ _ now p.id hnodup.1]
        exact hspec.1
      · intro j hj hjid
        have hjf : j ∈ (foldUpsert (upsertJob jobs nid now p).1
            (upsertJob jobs nid now p).2 now t).1.filter
            (fun j' => j'.external_id = p.id) := by
          apply List.mem_filter.mpr
          refine ⟨?_, by simp [hjid]⟩
          rw [← foldUpsert_cons]
          exact hj
        rw [foldUpsert_filter_not_mem t _ _ now p.id hnodup.1] at hjf
        exact hspec.2 j (List.mem_filter.mp hjf).1 hjid
    · rw [foldUpsert_cons]
      exact ih _ _ now hstep_uniq hnodup.2 p hpt

theorem foldUpsert_mem_of_not_seen (payloads : List Payload) (jobs : List Job)
    (nid now : ℕ) (j : Job) (hj : j ∈ jobs)
    (hnot : j.external_id ∉ payloads.map (fun p => p.id)) :
    j ∈ (foldUpsert jobs nid now payloads).1 := by
  have h1 : j ∈ jobs.filter (fun j' => j'.external_id = j.external_id) :=
    List.mem_filter.mpr ⟨hj, by simp⟩
  rw [← foldUpsert_filter_not_mem payloads jobs nid now j.external_id hnot] at h1
  exact (List.mem_filter.mp h1).1

end JobSync

/-- C5: after a forced sync with commit success and a non-empty fetched
record set (with distinct external ids, as the upstream contract
guarantees, over a job table whose external ids are unique): every fetched
record has exactly one local job and it carries exactly the fetched field
values (upsert in place, never duplicated); every stored job absent from
the fetched id set with no applications is deleted; every such absent job
with an application is retained unchanged. -/
theorem C5_forced_sync_reconciliation (s : JobSync.SyncState)
    (payloads : List JobSync.Payload) (timeout now : ℕ)
    (huniq : (s.jobs.map (fun j => j.external_id)).Nodup)
    (hnodup : (payloads.map (fun p => p.id)).Nodup)
    (hne : payloads ≠ []) :
    JobSync.sync_jobs_if_needed s true timeout now payloads true
      = Except.ok (JobSync.syncRefresh s payloads now)
    ∧ (∀ p ∈ payloads,
        JobSync.countEid (JobSync.syncRefresh s payloads now).jobs p.id = 1
        ∧ ∀ j ∈ (JobSync.syncRefresh s payloads now).jobs,
            j.external_id = p.id → JobSync.matchesPayload j p)
    ∧ (∀ j ∈ s.jobs, j.external_id ∉ payloads.map (fun p => p.id) →
        j.id ∉ s.appJobIds → j ∉ (JobSync.syncRefresh s payloads now).jobs)
    ∧ (∀ j ∈ s.jobs, j.external_id ∉ payloads.map (fun p => p.id) →
        j.id ∈ s.appJobIds → j ∈ (JobSync.syncRefresh s payloads now).jobs) := by
  have hseen : ((payloads.map (fun p => p.id)).toFinset : Finset String) ≠ ∅ := by
    rw [Ne, List.toFinset_eq_empty_iff, List.map_eq_nil_iff]
    exact hne
  have hjobs : (JobSync.syncRefresh s payloads now).jobs
      = (JobSync.foldUpsert s.jobs s.nextId now payloads).1.filter
        (fun j => ¬(j.external_id ∉ (payloads.map (fun p => p.id)).toFinset
          ∧ j.id ∉ s.appJobIds)) := by
    simp only [JobSync.syncRefresh]
    rw [if_pos hseen]
  have hcount := JobSync.countEid_le_one_of_nodup s.jobs huniq
  refine ⟨?_, ?_, ?_, ?_⟩
  · unfold JobSync.sync_jobs_if_needed JobSync.shouldRefresh
    cases s.lastSyncAt <;> simp
  · intro p hp
    have hpid_seen : p.id ∈ (payloads.map (fun p => p.id)).toFinset :=
      List.mem_toFinset.mpr (List.mem_map.mpr ⟨p, hp, rfl⟩)
    have hspec := JobSync.foldUpsert_payload_spec payloads s.jobs s.nextId now
      hcount hnodup p hp
    constructor
    · rw [hjobs, JobSync.countEid, List.filter_filter]
      rw [List.filter_congr (fun jj _ => ?_)]
      · exact hspec.1
      · show (decide (jj.external_id = p.id)
          && decide ¬(jj.external_id ∉ (payloads.map (fun p => p.id)).toFinset
            ∧ jj.id ∉ s.appJobIds)) = decide (jj.external_id = p.id)
        by_cases hjj : jj.external_id = p.id
        · rw [hjj]
          simp [hpid_seen]
        · simp [hjj]
    · intro j hj hjid
      rw [hjobs] at hj
      exact hspec.2 j (List.mem_of_mem_filter hj) hjid
  · intro j hj hnotseen hnoapp
    rw [hjobs]
    intro hmem
    have hkeep := (List.mem_filter.mp hmem).2
    rw [decide_eq_true_eq] at hkeep
    exact hkeep ⟨fun h => hnotseen (List.mem_toFinset.mp h), hnoapp⟩
  · intro j hj hnotseen happ
    rw [hjobs]
    apply List.mem_filter.mpr
    refine ⟨JobSync.foldUpsert_mem_of_not_seen payloads s.jobs s.nextId now j hj
      hnotseen, ?_⟩
    rw [decide_eq_true_eq]
    intro hcontra
    exact hcontra.2 happ

/-- A stored job with no applications, absent from the next fetch. -/
def jobA : Job := ⟨1, "x", "tA", "rA", "cA", "lA", "dA", [], [], 0, 0⟩

/-- A stored job that has an application, absent from the next fetch. -/
def jobB : Job := ⟨2, "y", "tB", "rB", "cB", "lB", "dB", [], [], 0, 0⟩

/-- A sync state holding `jobA` and `jobB`, where only `jobB` (id 2) has
an application row. -/
def s0C5 : JobSync.SyncState := ⟨[jobA, jobB], [2], Option.none, 3⟩

/-- A fetched payload with a fresh external id `"z"`. -/
def pzC5 : JobSync.Payload :=
  ⟨"z", "tZ", "rZ", "lZ", Option.none, Option.none, Option.none, Option.none,
   Option.none⟩

/-- Witness for C5: syncing `[pzC5]` over `s0C5` deletes `jobA`
(no applications), keeps `jobB` (has one), and stores exactly one job for
the new external id `"z"`. -/
theorem C5_witness :
    jobA ∉ (JobSync.syncRefresh s0C5 [pzC5] 100).jobs
    ∧ jobB ∈ (JobSync.syncRefresh s0C5 [pzC5] 100).jobs
    ∧ JobSync.countEid (JobSync.syncRefresh s0C5 [pzC5] 100).jobs "z" = 1 := by
  have h := C5_forced_sync_reconciliation s0C5 [pzC5] 900 100 (by decide) (by decide)
    (by decide)
  exact ⟨h.2.2.1 jobA (by decide) (by decide) (by decide),
         h.2.2.2 jobB (by decide) (by decide) (by decide),
         (h.2.1 pzC5 (by decide)).1⟩
